import Mathlib

/-!
A shallow embedding of the ex-style range/command parser (`parsing/src/cmd.rs`)
of the `ded` application, together with proofs about it.

The source is built from `nom` 4 parser-combinator macros applied to plain
`&str` input.  With that input type nom 4 uses *streaming* semantics:

* `digit` returns `Incomplete` when it reaches the end of input while still
  consuming digits (in particular on empty input), `Error` when the first
  character is not a digit, and otherwise the maximal digit run together with
  the remaining input;
* `char!(c)` returns `Incomplete` on empty input, `Error` on a mismatch;
* `take_until!(s)` returns `Incomplete` when the substring does not occur;
* `alt!` tries the next alternative only on `Error` and propagates
  `Incomplete` immediately;
* `opt!` turns `Error` into a `none` result but propagates `Incomplete`;
* `map_res!` turns an `Err` of the mapped Rust function into `Error`.

Strings are modelled as `List Char`; a parser takes the input and returns the
remaining input plus a value, or one of the two nom failure modes.  `usize` is
modelled as a 64-bit unsigned integer, so `usize::from_str` succeeds exactly
when the denoted value is at most `2 ^ 64 - 1`.
-/

namespace Ded

/-- The `Endpoint` type from `cmd.rs`: `Fixed(usize)`, `Moment(usize)`, `Search(&str)`. -/
inductive Endpoint where
  | Fixed : Nat → Endpoint
  | Moment : Nat → Endpoint
  | Search : List Char → Endpoint
deriving DecidableEq, Repr

/-- The `Range` type from `cmd.rs`. -/
inductive Range where
  | Single : Endpoint → Range
  | DoubledEnded : Endpoint → Endpoint → Range
  | PastToPresent : Endpoint → Range
deriving DecidableEq, Repr

/-- The `Command` type from `cmd.rs`: an optional range and the remaining command text. -/
structure Command where
  range : Option Range
  command : List Char
deriving DecidableEq, Repr

/-- Result of a nom 4 parser on streaming (`&str`) input: success with the
remaining input and a value, a recoverable `Err::Error`, or `Err::Incomplete`. -/
inductive PResult (α : Type) where
  | ok : List Char → α → PResult α
  | error : PResult α
  | incomplete : PResult α
deriving DecidableEq, Repr

/-- Sequencing as in `do_parse!`: failures propagate. -/
def PResult.bind {α β : Type} (r : PResult α) (f : List Char → α → PResult β) :
    PResult β :=
  match r with
  | .ok rest a => f rest a
  | .error => .error
  | .incomplete => .incomplete

/-- Whether a parser result is a success. -/
def PResult.succeeds {α : Type} : PResult α → Bool
  | .ok _ _ => true
  | _ => false

/-- nom 4 streaming `digit` on `&str`: the maximal leading run of ASCII
decimal digits; `Error` if the first character is not a digit, `Incomplete`
if the run is only terminated by the end of input. -/
def digit (i : List Char) : PResult (List Char) :=
  let ds := i.takeWhile Char.isDigit
  let rest := i.dropWhile Char.isDigit
  if rest.isEmpty then .incomplete
  else if ds.isEmpty then .error
  else .ok rest ds

/-- nom 4 streaming `char!(c)`: `Incomplete` on empty input, `Error` on a
mismatch, otherwise consume exactly one character. -/
def charP (c : Char) (i : List Char) : PResult Char :=
  match i with
  | [] => .incomplete
  | x :: rest => if x = c then .ok rest c else .error

/-- nom 4 streaming `take_until!("/")`: everything strictly before the first
`'/'` (possibly nothing), leaving the `'/'` unconsumed; `Incomplete` when no
`'/'` occurs in the input. -/
def takeUntilSlash (i : List Char) : PResult (List Char) :=
  let q := i.takeWhile (fun c => c ≠ '/')
  let rest := i.dropWhile (fun c => c ≠ '/')
  if rest.isEmpty then .incomplete
  else .ok rest q

/-- nom `rest_s`: the whole remaining input, always succeeding. -/
def rest_s (i : List Char) : PResult (List Char) :=
  .ok [] i

/-- The largest value of `usize`, modelled as 64 bits wide. -/
def USIZE_MAX : Nat := 2 ^ 64 - 1

/-- Numeric value of a digit string, most significant digit first. -/
def digitsToNat (ds : List Char) : Nat :=
  ds.foldl (fun acc c => acc * 10 + (c.toNat - '0'.toNat)) 0

/-- Rust `usize::from_str`: an optional leading `'+'`, then one or more
decimal digits; fails when the denoted value overflows `usize`. -/
def fromStrUsize (s : List Char) : Option Nat :=
  let ds := if s.head? = some '+' then s.tail else s
  if ds.isEmpty then none
  else if ds.all Char.isDigit then
    if digitsToNat ds ≤ USIZE_MAX then some (digitsToNat ds) else none
  else none

/-- Parser `number` from `cmd.rs`: `map_res!(digit, FromStr::from_str)`. -/
def number (i : List Char) : PResult Nat :=
  match digit i with
  | .ok rest ds =>
    match fromStrUsize ds with
    | some v => .ok rest v
    | none => .error
  | .error => .error
  | .incomplete => .incomplete

/-- Parser `fixed` from `cmd.rs`: a digit run parsed as a `Fixed` endpoint. -/
def fixed (i : List Char) : PResult Endpoint :=
  (number i).bind fun rest n => .ok rest (.Fixed n)

/-- Parser `moment` from `cmd.rs`: `'#'` then a digit run, as a `Moment` endpoint. -/
def moment (i : List Char) : PResult Endpoint :=
  (charP '#' i).bind fun r1 _ =>
  (digit r1).bind fun r2 ds =>
  match fromStrUsize ds with
  | some v => .ok r2 (.Moment v)
  | none => .error

/-- Parser `search` from `cmd.rs`: `delimited!(char!('/'), take_until!("/"), char!('/'))`
as a `Search` endpoint. -/
def search (i : List Char) : PResult Endpoint :=
  (charP '/' i).bind fun r1 _ =>
  (takeUntilSlash r1).bind fun r2 q =>
  (charP '/' r2).bind fun r3 _ =>
  .ok r3 (.Search q)

/-- Parser `endpoint` from `cmd.rs`: `alt!(fixed | moment | search)`; only `Error`
falls through to the next alternative. -/
def endpoint (i : List Char) : PResult Endpoint :=
  match fixed i with
  | .error =>
    match moment i with
    | .error => search i
    | r => r
  | r => r

/-- Parser `single` from `cmd.rs`. -/
def single (i : List Char) : PResult Range :=
  (endpoint i).bind fun rest e => .ok rest (.Single e)

/-- Parser `double_ended` from `cmd.rs`. -/
def double_ended (i : List Char) : PResult Range :=
  (endpoint i).bind fun r1 l =>
  (charP ',' r1).bind fun r2 _ =>
  (endpoint r2).bind fun r3 r =>
  .ok r3 (.DoubledEnded l r)

/-- Parser `past_to_present` from `cmd.rs`. -/
def past_to_present (i : List Char) : PResult Range :=
  (endpoint i).bind fun r1 e =>
  (charP ',' r1).bind fun r2 _ =>
  .ok r2 (.PastToPresent e)

/-- Parser `range` from `cmd.rs`: `alt!(double_ended | past_to_present | single)`. -/
def range (i : List Char) : PResult Range :=
  match double_ended i with
  | .error =>
    match past_to_present i with
    | .error => single i
    | r => r
  | r => r

/-- Parser `command` from `cmd.rs`: `opt!(range)` (recovering only from `Error`)
followed by `rest_s`. -/
def command (i : List Char) : PResult Command :=
  match range i with
  | .ok rest v =>
    (rest_s rest).bind fun rest2 text => .ok rest2 { range := some v, command := text }
  | .error =>
    (rest_s i).bind fun rest2 text => .ok rest2 { range := none, command := text }
  | .incomplete => .incomplete

/-- Entry point `parse_cmd` from `cmd.rs`: `Some` on success, `None` on any `Err`. -/
def parse_cmd (i : List Char) : Option Command :=
  match command i with
  | .ok _ c => some c
  | _ => none

/-- The endpoints occurring in a `Range`, in order. -/
def Range.endpoints : Range → List Endpoint
  | .Single e => [e]
  | .DoubledEnded a b => [a, b]
  | .PastToPresent e => [e]

end Ded

namespace Ded

example : parse_cmd "d".toList = some ⟨none, "d".toList⟩ := by decide
example : parse_cmd "5,d".toList =
    some ⟨some (.PastToPresent (.Fixed 5)), "d".toList⟩ := by decide
example : parse_cmd "10,5d".toList =
    some ⟨some (.DoubledEnded (.Fixed 10) (.Fixed 5)), "d".toList⟩ := by decide
example : parse_cmd "#5,d".toList =
    some ⟨some (.PastToPresent (.Moment 5)), "d".toList⟩ := by decide
example : parse_cmd ",#5d".toList = some ⟨none, ",#5d".toList⟩ := by decide
example : parse_cmd "/foo/d".toList =
    some ⟨some (.Single (.Search "foo".toList)), "d".toList⟩ := by decide
example : parse_cmd "/bar/,d".toList =
    some ⟨some (.PastToPresent (.Search "bar".toList)), "d".toList⟩ := by decide
example : parse_cmd "/foo/,/bar/d".toList =
    some ⟨some (.DoubledEnded (.Search "foo".toList) (.Search "bar".toList)), "d".toList⟩ := by
  decide
example : parse_cmd "d foo bar".toList = some ⟨none, "d foo bar".toList⟩ := by decide
example : parse_cmd "d b/ar/".toList = some ⟨none, "d b/ar/".toList⟩ := by decide
example : parse_cmd "".toList = none := by decide
example : parse_cmd "5".toList = none := by decide
example : parse_cmd "5,".toList = none := by decide
example : parse_cmd "/abc".toList = none := by decide
example : parse_cmd "/abc/".toList = none := by decide

/-- Inversion for `PResult.bind` on success. -/
theorem bind_ok {α β : Type} {p : PResult α} {f : List Char → α → PResult β}
    {rest : List Char} {b : β} (h : p.bind f = .ok rest b) :
    ∃ r1 a, p = .ok r1 a ∧ f r1 a = .ok rest b := by
  cases p with
  | ok r a => exact ⟨r, a, rfl, h⟩
  | error => simp [PResult.bind] at h
  | incomplete => simp [PResult.bind] at h

/-- A successful `charP` consumed exactly the expected character. -/
theorem charP_ok {c x : Char} {i rest : List Char}
    (h : charP c i = .ok rest x) : i = c :: rest ∧ x = c := by
  cases i with
  | nil => simp [charP] at h
  | cons y t =>
    simp only [charP] at h
    split at h
    · rename_i hy
      cases h
      exact ⟨by rw [hy], rfl⟩
    · cases h

/-- A `charP` error means the input starts with a different character. -/
theorem charP_error {c : Char} {i : List Char}
    (h : charP c i = .error) : ∃ x t, i = x :: t ∧ x ≠ c := by
  cases i with
  | nil => simp [charP] at h
  | cons y t =>
    refine ⟨y, t, rfl, fun hy => ?_⟩
    simp [charP, hy] at h

theorem charP_cons_ne {c y : Char} {t : List Char} (hy : y ≠ c) :
    charP c (y :: t) = .error := by
  simp [charP, hy]

/-- Inversion for a successful `digit`. -/
theorem digit_ok {i rest ds : List Char} (h : digit i = .ok rest ds) :
    i = ds ++ rest ∧ ds ≠ [] ∧ ds.all Char.isDigit = true ∧ rest ≠ [] := by
  simp only [digit] at h
  split at h
  · cases h
  · split at h
    · cases h
    · rename_i h1 h2
      cases h
      refine ⟨(List.takeWhile_append_dropWhile _ _).symm, ?_, List.all_takeWhile, ?_⟩
      · simpa using h2
      · simpa using h1

/-- A `digit` error means the first character is not a digit. -/
theorem digit_cons_error {x : Char} {t : List Char} (hx : x.isDigit = false) :
    digit (x :: t) = .error := by
  simp [digit, List.takeWhile_cons, List.dropWhile_cons, hx]

/-- Characters kept by `takeWhile` satisfy the predicate. -/
theorem mem_takeWhile_pred {p : Char → Bool} {l : List Char} {x : Char}
    (h : x ∈ l.takeWhile p) : p x = true := by
  induction l with
  | nil => simp at h
  | cons c t ih =>
    rw [List.takeWhile_cons] at h
    by_cases hc : p c
    · simp [hc] at h
      rcases h with h | h
      · rw [h]; exact hc
      · exact ih h
    · simp [hc] at h

/-- Inversion for a successful `takeUntilSlash`. -/
theorem takeUntilSlash_ok {i rest q : List Char}
    (h : takeUntilSlash i = .ok rest q) :
    i = q ++ rest ∧ ('/' ∉ q) ∧ rest ≠ [] := by
  simp only [takeUntilSlash] at h
  split at h
  · cases h
  · rename_i h1
    cases h
    refine ⟨(List.takeWhile_append_dropWhile _ _).symm, fun hm => ?_, by simpa using h1⟩
    have := mem_takeWhile_pred hm
    simp at this

/-- Inversion for a successful `number`. -/
theorem number_ok {i rest : List Char} {v : Nat} (h : number i = .ok rest v) :
    ∃ ds, digit i = .ok rest ds ∧ fromStrUsize ds = some v := by
  unfold number at h
  split at h
  · rename_i r ds hd
    split at h
    · rename_i w hw
      cases h
      exact ⟨ds, hd, hw⟩
    · cases h
  · cases h
  · cases h

/-- Inversion for a successful `fixed`. -/
theorem fixed_ok {i rest : List Char} {e : Endpoint} (h : fixed i = .ok rest e) :
    ∃ v, number i = .ok rest v ∧ e = .Fixed v := by
  obtain ⟨r1, v, hn, hf⟩ := bind_ok h
  cases hf
  exact ⟨v, hn, rfl⟩

/-- Inversion for a successful `moment`. -/
theorem moment_ok {i rest : List Char} {e : Endpoint} (h : moment i = .ok rest e) :
    ∃ t ds v, i = '#' :: t ∧ digit t = .ok rest ds ∧
      fromStrUsize ds = some v ∧ e = .Moment v := by
  obtain ⟨r1, c1, hc, h1⟩ := bind_ok h
  obtain ⟨hi, -⟩ := charP_ok hc
  obtain ⟨r2, ds, hd, h2⟩ := bind_ok h1
  split at h2
  · rename_i w hw
    cases h2
    exact ⟨r1, ds, w, hi, hd, hw, rfl⟩
  · cases h2

/-- Inversion for a successful `search`. -/
theorem search_ok {i rest : List Char} {e : Endpoint} (h : search i = .ok rest e) :
    ∃ t q, i = '/' :: t ∧ takeUntilSlash t = .ok ('/' :: rest) q ∧ e = .Search q := by
  obtain ⟨r1, c1, hc, h1⟩ := bind_ok h
  obtain ⟨hi, -⟩ := charP_ok hc
  obtain ⟨r2, q, ht, h2⟩ := bind_ok h1
  obtain ⟨r3, c3, hc3, h3⟩ := bind_ok h2
  obtain ⟨hr2, -⟩ := charP_ok hc3
  cases h3
  exact ⟨r1, q, hi, by rw [← hr2]; exact ht, rfl⟩

/-- Parser `fixed` fails with an error when the first character is not a digit. -/
theorem fixed_cons_error {x : Char} {t : List Char} (hx : x.isDigit = false) :
    fixed (x :: t) = .error := by
  simp [fixed, number, digit_cons_error hx, PResult.bind]

/-- Parser `moment` fails with an error when the first character is not `'#'`. -/
theorem moment_cons_error {x : Char} {t : List Char} (hx : x ≠ '#') :
    moment (x :: t) = .error := by
  simp [moment, charP, hx, PResult.bind]

/-- Parser `search` fails with an error when the first character is not `'/'`. -/
theorem search_cons_error {x : Char} {t : List Char} (hx : x ≠ '/') :
    search (x :: t) = .error := by
  simp [search, charP, hx, PResult.bind]

/-- Parser `endpoint` succeeds exactly when one of its three alternatives does. -/
theorem endpoint_ok_iff {i rest : List Char} {e : Endpoint} :
    endpoint i = .ok rest e ↔
      fixed i = .ok rest e ∨ moment i = .ok rest e ∨ search i = .ok rest e := by
  constructor
  · intro h
    unfold endpoint at h
    cases hf : fixed i with
    | error =>
      rw [hf] at h
      cases hm : moment i with
      | error => rw [hm] at h; exact Or.inr (Or.inr h)
      | ok r a => rw [hm] at h; exact Or.inr (Or.inl h)
      | incomplete => rw [hm] at h; simp at h
    | ok r a => rw [hf] at h; exact Or.inl h
    | incomplete => rw [hf] at h; simp at h
  · rintro (h | h | h)
    · rw [endpoint, h]
    · obtain ⟨t, ds, v, hi, -, -, -⟩ := moment_ok h
      subst hi
      rw [endpoint, fixed_cons_error (by decide), h]
    · obtain ⟨t, q, hi, -, -⟩ := search_ok h
      subst hi
      rw [endpoint, fixed_cons_error (by decide),
        moment_cons_error (by decide), h]

/-- Inversion for a successful `single`. -/
theorem single_ok {i rest : List Char} {v : Range} (h : single i = .ok rest v) :
    ∃ e, v = .Single e ∧ endpoint i = .ok rest e := by
  obtain ⟨r1, e, he, h1⟩ := bind_ok h
  cases h1
  exact ⟨e, rfl, he⟩

/-- Inversion for a successful `double_ended`. -/
theorem double_ended_ok {i rest : List Char} {v : Range}
    (h : double_ended i = .ok rest v) :
    ∃ a b r1 r2, v = .DoubledEnded a b ∧ endpoint i = .ok r1 a ∧
      r1 = ',' :: r2 ∧ endpoint r2 = .ok rest b := by
  obtain ⟨r1, a, ha, h1⟩ := bind_ok h
  obtain ⟨r2, c2, hc, h2⟩ := bind_ok h1
  obtain ⟨hr1, -⟩ := charP_ok hc
  obtain ⟨r3, b, hb, h3⟩ := bind_ok h2
  cases h3
  exact ⟨a, b, r1, r2, rfl, ha, hr1, hb⟩

/-- Inversion for a successful `past_to_present`. -/
theorem past_to_present_ok {i rest : List Char} {v : Range}
    (h : past_to_present i = .ok rest v) :
    ∃ e r1, v = .PastToPresent e ∧ endpoint i = .ok r1 e ∧ r1 = ',' :: rest := by
  obtain ⟨r1, e, he, h1⟩ := bind_ok h
  obtain ⟨r2, c2, hc, h2⟩ := bind_ok h1
  obtain ⟨hr1, -⟩ := charP_ok hc
  cases h2
  exact ⟨e, r1, rfl, he, hr1⟩

/-- A successful `range` parse came from the first alternative that did not
fail with a recoverable error. -/
theorem range_ok_cases {i rest : List Char} {v : Range} (h : range i = .ok rest v) :
    double_ended i = .ok rest v ∨
    (double_ended i = .error ∧ past_to_present i = .ok rest v) ∨
    (double_ended i = .error ∧ past_to_present i = .error ∧
      single i = .ok rest v) := by
  unfold range at h
  cases hd : double_ended i with
  | error =>
    rw [hd] at h
    cases hp : past_to_present i with
    | error => rw [hp] at h; exact Or.inr (Or.inr ⟨rfl, rfl, h⟩)
    | ok r a => rw [hp] at h; exact Or.inr (Or.inl ⟨rfl, h⟩)
    | incomplete => rw [hp] at h; simp at h
  | ok r a => rw [hd] at h; exact Or.inl h
  | incomplete => rw [hd] at h; simp at h

/-- A successful `parse_cmd` came from a successful or error-recovered
`range` parse, with `rest_s` capturing the remainder. -/
theorem parse_cmd_some {s : List Char} {c : Command} (h : parse_cmd s = some c) :
    (∃ rest v, range s = .ok rest v ∧ c = ⟨some v, rest⟩) ∨
    (range s = .error ∧ c = ⟨none, s⟩) := by
  unfold parse_cmd command at h
  cases hr : range s with
  | ok rest v =>
    rw [hr] at h
    simp [rest_s, PResult.bind] at h
    exact Or.inl ⟨rest, v, rfl, h.symm⟩
  | error =>
    rw [hr] at h
    simp [rest_s, PResult.bind] at h
    exact Or.inr ⟨rfl, h.symm⟩
  | incomplete => rw [hr] at h; simp at h

/-- A successful `endpoint` consumes a nonempty span of the input, and a
`Search` value it produces contains no slash. -/
theorem endpoint_ok_parts {i rest : List Char} {e : Endpoint}
    (h : endpoint i = .ok rest e) :
    ∃ pre, i = pre ++ rest ∧ pre ≠ [] ∧ (∀ q, e = .Search q → '/' ∉ q) := by
  rcases endpoint_ok_iff.mp h with hf | hm | hs
  · obtain ⟨v, hn, he⟩ := fixed_ok hf
    obtain ⟨ds, hd, -⟩ := number_ok hn
    obtain ⟨hi, hne, -, -⟩ := digit_ok hd
    exact ⟨ds, hi, hne, fun q hq => by rw [he] at hq; cases hq⟩
  · obtain ⟨t, ds, v, hi, hd, -, he⟩ := moment_ok hm
    obtain ⟨ht, -, -, -⟩ := digit_ok hd
    refine ⟨'#' :: ds, ?_, by simp, fun q hq => by rw [he] at hq; cases hq⟩
    rw [hi, ht]; rfl
  · obtain ⟨t, q, hi, ht, he⟩ := search_ok hs
    obtain ⟨htq, hq, -⟩ := takeUntilSlash_ok ht
    refine ⟨'/' :: q ++ ['/'], ?_, by simp, ?_⟩
    · rw [hi, htq]; simp
    · intro q2 hq2
      rw [he] at hq2
      cases hq2
      exact hq

/-- Lemma: `takeWhile` passes over a block that wholly satisfies the predicate. -/
theorem takeWhile_append_all {p : Char → Bool} {d : List Char} (s : List Char)
    (h : d.all p = true) : (d ++ s).takeWhile p = d ++ s.takeWhile p := by
  induction d with
  | nil => simp
  | cons c t ih =>
    simp only [List.all_cons, Bool.and_eq_true] at h
    simp [List.takeWhile_cons, h.1, ih h.2]

/-- Lemma: `dropWhile` drops a block that wholly satisfies the predicate. -/
theorem dropWhile_append_all {p : Char → Bool} {d : List Char} (s : List Char)
    (h : d.all p = true) : (d ++ s).dropWhile p = s.dropWhile p := by
  induction d with
  | nil => simp
  | cons c t ih =>
    simp only [List.all_cons, Bool.and_eq_true] at h
    simp [List.dropWhile_cons, h.1, ih h.2]

/-- On a nonempty all-digit string, `usize::from_str` depends only on the
denoted value: it succeeds exactly when the value fits in `usize`. -/
theorem fromStrUsize_digits {d : List Char} (hne : d ≠ [])
    (hall : d.all Char.isDigit = true) :
    fromStrUsize d =
      if digitsToNat d ≤ USIZE_MAX then some (digitsToNat d) else none := by
  have hs : (if d.head? = some '+' then d.tail else d) = d := by
    cases d with
    | nil => rfl
    | cons c t =>
      simp only [List.all_cons, Bool.and_eq_true] at hall
      have hc : c ≠ '+' := by
        intro hc
        rw [hc] at hall
        exact absurd hall.1 (by decide)
      simp [hc]
  simp only [fromStrUsize, hs, List.isEmpty_eq_true, hne, if_false, hall, if_true]

/-- Behavior of `digit` on a nonempty all-digit block followed by a non-digit boundary. -/
theorem digit_append {d s : List Char} (hne : d ≠ [])
    (hall : d.all Char.isDigit = true)
    (hs : ∀ x t, s = x :: t → x.isDigit = false) :
    digit (d ++ s) = if s.isEmpty then .incomplete else .ok s d := by
  have htw : s.takeWhile Char.isDigit = [] := by
    cases s with
    | nil => rfl
    | cons x t => simp [List.takeWhile_cons, hs x t rfl]
  have hdw : s.dropWhile Char.isDigit = s := by
    cases s with
    | nil => rfl
    | cons x t => simp [List.dropWhile_cons, hs x t rfl]
  simp only [digit, takeWhile_append_all s hall, dropWhile_append_all s hall,
    htw, hdw, List.append_nil]
  cases s with
  | nil => simp
  | cons x t => simp [List.isEmpty_eq_true, hne]

/-- C1: the claim says `parse_cmd` is total and fail-soft, producing a
`Command` for every input string including the empty string.  The code
refutes this: on the empty string (and any input the range grammar is still
mid-parse at end of input) the nom 4 streaming parser reports `Incomplete`,
which `opt!` propagates, so `parse_cmd` returns `none`. -/
theorem C1_parse_cmd_not_total :
    command ("".toList) = PResult.incomplete ∧
    parse_cmd ("".toList) = none ∧
    parse_cmd ("5".toList) = none := by decide

/-- C2: the claim says an input starting with `'/'` and lacking a closing
`'/'` is reinterpreted as literal command text with `range = none`.  The code
refutes this: `take_until!("/")` reports `Incomplete` (not a recoverable
error) when no `'/'` occurs, so the whole parse aborts and `parse_cmd`
returns `none` instead of a `Command`. -/
theorem C2_unterminated_search_not_literal :
    search ("/abc".toList) = PResult.incomplete ∧
    parse_cmd ("/abc".toList) = none := by decide

/-- C3 counterexample: the digit run `18446744073709551616` (the value
`2 ^ 64`, one past `usize::MAX`) is matched by `digit`, yet the numeric
conversion step (`map_res!` with `usize::from_str`) fails, so the claim that
no digit run makes the conversion fail is false. -/
theorem C3_counterexample :
    digit ("18446744073709551616,".toList) =
      .ok [','] ("18446744073709551616".toList) ∧
    number ("18446744073709551616,".toList) = PResult.error := by decide

/-- C3 (amended): for every digit run matched by `digit` whose value fits in
`usize`, the numeric conversion succeeds and yields that value; longer runs
(denoting values above `usize::MAX`) make the conversion step fail. -/
theorem C3_conversion_succeeds_iff_fits {i rest ds : List Char}
    (h : digit i = .ok rest ds) :
    number i = (if digitsToNat ds ≤ USIZE_MAX
      then .ok rest (digitsToNat ds) else .error) := by
  obtain ⟨-, hne, hall, -⟩ := digit_ok h
  by_cases hv : digitsToNat ds ≤ USIZE_MAX
  · simp [number, h, fromStrUsize_digits hne hall, hv]
  · simp [number, h, fromStrUsize_digits hne hall, hv]

theorem C3_conversion_witness :
    number ("5,".toList) =
      (if digitsToNat ['5'] ≤ USIZE_MAX
        then .ok [','] (digitsToNat ['5']) else .error) :=
  C3_conversion_succeeds_iff_fits (by decide)

/-- C4: the claim says `past_to_present` succeeds as soon as the comma is
consumed regardless of what follows, including an empty remainder, with the
remainder becoming the command text.  The alternative itself does succeed on
`"5,"` with empty remainder, but the overall parse of `"5,"` returns `none`:
`double_ended`, tried first, hits end of input and its `Incomplete` is
propagated past `past_to_present` by `alt!`.  On `"5,d"` the claim holds. -/
theorem C4_past_to_present_empty_rest :
    past_to_present ("5,".toList) = .ok [] (.PastToPresent (.Fixed 5)) ∧
    parse_cmd ("5,".toList) = none ∧
    parse_cmd ("5,d".toList) =
      some ⟨some (.PastToPresent (.Fixed 5)), "d".toList⟩ := by decide

/-- C5: for every input whose first character is not a decimal digit, `'#'`,
or `'/'`, `parse_cmd` yields `range = none` and `command` equal to the whole
input, unchanged. -/
theorem C5_no_range_marker_literal (c : Char) (t : List Char)
    (hd : c.isDigit = false) (hh : c ≠ '#') (hs : c ≠ '/') :
    parse_cmd (c :: t) = some ⟨none, c :: t⟩ := by
  have hend : endpoint (c :: t) = .error := by
    simp [endpoint, fixed_cons_error hd, moment_cons_error hh,
      search_cons_error hs]
  have hde : double_ended (c :: t) = .error := by
    simp [double_ended, hend, PResult.bind]
  have hpt : past_to_present (c :: t) = .error := by
    simp [past_to_present, hend, PResult.bind]
  have hsi : single (c :: t) = .error := by
    simp [single, hend, PResult.bind]
  simp [parse_cmd, command, range, hde, hpt, hsi, rest_s, PResult.bind]

theorem C5_witness :
    parse_cmd ('d' :: " foo bar".toList) =
      some ⟨none, 'd' :: " foo bar".toList⟩ :=
  C5_no_range_marker_literal 'd' (" foo bar".toList)
    (by decide) (by decide) (by decide)

/-- A successful `range` consumed a prefix of the input. -/
theorem range_consumed {i rest : List Char} {v : Range}
    (h : range i = .ok rest v) : ∃ pre, i = pre ++ rest := by
  rcases range_ok_cases h with hd | ⟨-, hp⟩ | ⟨-, -, hs⟩
  · obtain ⟨a, b, r1, r2, -, ha, hr1, hb⟩ := double_ended_ok hd
    obtain ⟨p1, hi1, -, -⟩ := endpoint_ok_parts ha
    obtain ⟨p2, hi2, -, -⟩ := endpoint_ok_parts hb
    refine ⟨p1 ++ ',' :: p2, ?_⟩
    rw [hi1, hr1, hi2]
    simp
  · obtain ⟨e, r1, -, he, hr1⟩ := past_to_present_ok hp
    obtain ⟨p1, hi1, -, -⟩ := endpoint_ok_parts he
    refine ⟨p1 ++ [','], ?_⟩
    rw [hi1, hr1]
    simp
  · obtain ⟨e, -, he⟩ := single_ok hs
    obtain ⟨p1, hi1, -, -⟩ := endpoint_ok_parts he
    exact ⟨p1, hi1⟩

/-- C6: reconstruction law.  Whenever parsing produces a `Command`, the span
consumed by the matched range (empty when `range = none`) concatenated with
the returned command text equals the input exactly; when a range matched, the
command text is precisely the unconsumed remainder of the range parse, never
trimmed or normalized. -/
theorem C6_reconstruction {s : List Char} {c : Command}
    (h : parse_cmd s = some c) :
    ∃ pre, s = pre ++ c.command ∧ (c.range = none → pre = []) ∧
      (∀ r, c.range = some r → range s = .ok c.command r) := by
  rcases parse_cmd_some h with ⟨rest, v, hr, hc⟩ | ⟨hr, hc⟩
  · subst hc
    obtain ⟨pre, hpre⟩ := range_consumed hr
    refine ⟨pre, hpre, by simp, fun r hrr => ?_⟩
    cases hrr
    exact hr
  · subst hc
    exact ⟨[], rfl, fun _ => rfl, fun r hrr => by cases hrr⟩

theorem C6_witness :
    ∃ pre, "5,d".toList = pre ++ "d".toList ∧
      ((some (Range.PastToPresent (.Fixed 5)) : Option Range) = none →
        pre = []) ∧
      (∀ r, (some (Range.PastToPresent (.Fixed 5)) : Option Range) = some r →
        range ("5,d".toList) = .ok ("d".toList) r) :=
  @C6_reconstruction ("5,d".toList)
    ⟨some (.PastToPresent (.Fixed 5)), "d".toList⟩ (by decide)

/-- Parser `fixed` only succeeds when the input starts with a digit. -/
theorem fixed_ok_head {i rest : List Char} {e : Endpoint}
    (h : fixed i = .ok rest e) : ∃ x t, i = x :: t ∧ x.isDigit = true := by
  obtain ⟨v, hn, -⟩ := fixed_ok h
  obtain ⟨ds, hd, -⟩ := number_ok hn
  obtain ⟨hi, hne, hall, -⟩ := digit_ok hd
  cases ds with
  | nil => exact absurd rfl hne
  | cons x dt =>
    simp only [List.all_cons, Bool.and_eq_true] at hall
    exact ⟨x, dt ++ rest, hi, hall.1⟩

/-- C7: the three `endpoint` alternatives are mutually exclusive by leading
character: on every input at most one of `fixed`, `moment`, `search`
succeeds, and `endpoint` succeeds with a value exactly when one of the three
does, so the trial order cannot change the produced `Endpoint`. -/
theorem C7_alternatives_mutually_exclusive (i : List Char) :
    ((if (fixed i).succeeds then 1 else 0) +
      (if (moment i).succeeds then 1 else 0) +
      (if (search i).succeeds then 1 else 0) ≤ 1) ∧
    ∀ rest e, endpoint i = .ok rest e ↔
      (fixed i = .ok rest e ∨ moment i = .ok rest e ∨ search i = .ok rest e) := by
  refine ⟨?_, fun rest e => endpoint_ok_iff⟩
  cases i with
  | nil =>
    simp [fixed, number, digit, moment, search, charP, PResult.bind,
      PResult.succeeds]
  | cons x t =>
    by_cases hd : x.isDigit
    · have h1 : moment (x :: t) = .error := moment_cons_error (by
        intro h
        rw [h] at hd
        exact absurd hd (by decide))
      have h2 : search (x :: t) = .error := search_cons_error (by
        intro h
        rw [h] at hd
        exact absurd hd (by decide))
      cases hf : (fixed (x :: t)).succeeds <;>
        simp [h1, h2, hf, PResult.succeeds]
    · have h1 : fixed (x :: t) = .error :=
        fixed_cons_error (by simpa using hd)
      by_cases hh : x = '#'
      · have h2 : search (x :: t) = .error := search_cons_error (by
          rw [hh]; decide)
        cases hm : (moment (x :: t)).succeeds <;>
          simp [h1, h2, hm, PResult.succeeds]
      · have h2 : moment (x :: t) = .error := moment_cons_error hh
        cases hs : (search (x :: t)).succeeds <;>
          simp [h1, h2, hs, PResult.succeeds]

/-- C8: every `Search` pattern inside a returned range is slash-free: its
characters were taken strictly before the closing delimiter. -/
theorem C8_search_patterns_slash_free {s : List Char} {c : Command}
    {r : Range} {q : List Char} (h : parse_cmd s = some c)
    (hr : c.range = some r) (hq : Endpoint.Search q ∈ r.endpoints) :
    '/' ∉ q := by
  rcases parse_cmd_some h with ⟨rest, v, hrg, hc⟩ | ⟨-, hc⟩
  · subst hc
    cases hr
    rcases range_ok_cases hrg with hd | ⟨-, hp⟩ | ⟨-, -, hsg⟩
    · obtain ⟨a, b, r1, r2, hv, ha, -, hb⟩ := double_ended_ok hd
      cases hv
      simp only [Range.endpoints, List.mem_cons, List.not_mem_nil,
        or_false] at hq
      rcases hq with hq | hq
      · obtain ⟨-, -, -, hsafe⟩ := endpoint_ok_parts ha
        exact hsafe q hq.symm
      · obtain ⟨-, -, -, hsafe⟩ := endpoint_ok_parts hb
        exact hsafe q hq.symm
    · obtain ⟨e, r1, hv, he, -⟩ := past_to_present_ok hp
      cases hv
      simp only [Range.endpoints, List.mem_singleton] at hq
      obtain ⟨-, -, -, hsafe⟩ := endpoint_ok_parts he
      exact hsafe q hq.symm
    · obtain ⟨e, hv, he⟩ := single_ok hsg
      cases hv
      simp only [Range.endpoints, List.mem_singleton] at hq
      obtain ⟨-, -, -, hsafe⟩ := endpoint_ok_parts he
      exact hsafe q hq.symm
  · subst hc
    cases hr

theorem C8_witness : ('/' : Char) ∉ ("foo".toList) :=
  @C8_search_patterns_slash_free ("/foo/d".toList)
    ⟨some (.Single (.Search "foo".toList)), "d".toList⟩
    (.Single (.Search "foo".toList)) ("foo".toList)
    (by decide) (by decide) (by decide)

/-- C9: when the returned range is `Single`, the command text does not begin
with a comma: a comma right after the endpoint would have been consumed by
`double_ended` or `past_to_present`, which are tried before `single`. -/
theorem C9_single_command_no_leading_comma {s : List Char} {c : Command}
    {e : Endpoint} (h : parse_cmd s = some c)
    (hr : c.range = some (.Single e)) : c.command.head? ≠ some ',' := by
  rcases parse_cmd_some h with ⟨rest, v, hrg, hc⟩ | ⟨-, hc⟩
  · subst hc
    cases hr
    rcases range_ok_cases hrg with hd | ⟨-, hp⟩ | ⟨hde, hpe, hsg⟩
    · obtain ⟨a, b, r1, r2, hv, -, -, -⟩ := double_ended_ok hd
      cases hv
    · obtain ⟨e2, r1, hv, -, -⟩ := past_to_present_ok hp
      cases hv
    · obtain ⟨e2, hv, hep⟩ := single_ok hsg
      cases hv
      unfold past_to_present at hpe
      rw [hep] at hpe
      simp only [PResult.bind] at hpe
      cases hcp : charP ',' rest with
      | ok r2 c2 => rw [hcp] at hpe; simp at hpe
      | incomplete => rw [hcp] at hpe; simp at hpe
      | error =>
        obtain ⟨x, t2, hrest, hx⟩ := charP_error hcp
        simp only [hrest]
        simp [hx]
  · subst hc
    cases hr

theorem C9_witness : (("d".toList).head? ≠ some ',') :=
  @C9_single_command_no_leading_comma ("5d".toList)
    ⟨some (.Single (.Fixed 5)), "d".toList⟩ (.Fixed 5)
    (by decide) (by decide)

/-- All three `range` alternatives depend on the input only through
`endpoint`. -/
theorem range_congr_endpoint {i1 i2 : List Char}
    (h : endpoint i1 = endpoint i2) : range i1 = range i2 := by
  unfold range double_ended past_to_present single
  rw [h]

/-- Equal `range` results give equal parsed range fields. -/
theorem map_range_congr {i1 i2 : List Char} (h : range i1 = range i2) :
    Option.map Command.range (parse_cmd i1) =
      Option.map Command.range (parse_cmd i2) := by
  cases hr : range i2 with
  | ok rest v =>
    simp [parse_cmd, command, h.trans hr, hr, rest_s, PResult.bind]
  | error =>
    simp [parse_cmd, command, h.trans hr, hr, rest_s, PResult.bind]
  | incomplete =>
    simp [parse_cmd, command, h.trans hr, hr]

/-- Equal-valued leading digit spans with the same non-digit continuation
give identical `endpoint` results. -/
theorem endpoint_digit_span_congr {d1 d2 s : List Char}
    (h1 : d1 ≠ []) (h1d : d1.all Char.isDigit = true)
    (h2 : d2 ≠ []) (h2d : d2.all Char.isDigit = true)
    (hv : digitsToNat d1 = digitsToNat d2)
    (hs : ∀ x t, s = x :: t → x.isDigit = false) :
    endpoint (d1 ++ s) = endpoint (d2 ++ s) := by
  cases s with
  | nil =>
    have hdi1 : digit d1 = .incomplete := by
      have := digit_append h1 h1d hs
      simpa using this
    have hdi2 : digit d2 = .incomplete := by
      have := digit_append h2 h2d hs
      simpa using this
    simp [endpoint, fixed, number, hdi1, hdi2, PResult.bind]
  | cons x t =>
    have hd1 : digit (d1 ++ x :: t) = .ok (x :: t) d1 := by
      rw [digit_append h1 h1d hs]
      rfl
    have hd2 : digit (d2 ++ x :: t) = .ok (x :: t) d2 := by
      rw [digit_append h2 h2d hs]
      rfl
    have hf1 := fromStrUsize_digits h1 h1d
    have hf2 := fromStrUsize_digits h2 h2d
    rw [hv] at hf1
    by_cases hfit : digitsToNat d2 ≤ USIZE_MAX
    · have he1 : endpoint (d1 ++ x :: t) =
          .ok (x :: t) (.Fixed (digitsToNat d2)) := by
        simp [endpoint, fixed, number, hd1, hf1, hfit, PResult.bind]
      have he2 : endpoint (d2 ++ x :: t) =
          .ok (x :: t) (.Fixed (digitsToNat d2)) := by
        simp [endpoint, fixed, number, hd2, hf2, hfit, PResult.bind]
      rw [he1, he2]
    · obtain ⟨y1, u1, hdc1⟩ : ∃ y u, d1 = y :: u := by
        cases d1 with
        | nil => exact absurd rfl h1
        | cons y u => exact ⟨y, u, rfl⟩
      obtain ⟨y2, u2, hdc2⟩ : ∃ y u, d2 = y :: u := by
        cases d2 with
        | nil => exact absurd rfl h2
        | cons y u => exact ⟨y, u, rfl⟩
      have hy1 : y1.isDigit = true := by
        rw [hdc1, List.all_cons, Bool.and_eq_true] at h1d
        exact h1d.1
      have hy2 : y2.isDigit = true := by
        rw [hdc2, List.all_cons, Bool.and_eq_true] at h2d
        exact h2d.1
      have hm1 : moment (d1 ++ x :: t) = .error := by
        rw [hdc1, List.cons_append]
        exact moment_cons_error (by
          intro h
          rw [h] at hy1
          exact absurd hy1 (by decide))
      have hm2 : moment (d2 ++ x :: t) = .error := by
        rw [hdc2, List.cons_append]
        exact moment_cons_error (by
          intro h
          rw [h] at hy2
          exact absurd hy2 (by decide))
      have hs1 : search (d1 ++ x :: t) = .error := by
        rw [hdc1, List.cons_append]
        exact search_cons_error (by
          intro h
          rw [h] at hy1
          exact absurd hy1 (by decide))
      have hs2 : search (d2 ++ x :: t) = .error := by
        rw [hdc2, List.cons_append]
        exact search_cons_error (by
          intro h
          rw [h] at hy2
          exact absurd hy2 (by decide))
      have he1 : endpoint (d1 ++ x :: t) = .error := by
        simp [endpoint, fixed, number, hd1, hf1, hfit, PResult.bind,
          hm1, hs1]
      have he2 : endpoint (d2 ++ x :: t) = .error := by
        simp [endpoint, fixed, number, hd2, hf2, hfit, PResult.bind,
          hm2, hs2]
      rw [he1, he2]

/-- Equal-valued digit spans after a leading `'#'` (a `Moment` span) with the
same non-digit continuation give identical `endpoint` results. -/
theorem endpoint_moment_span_congr {d1 d2 s : List Char}
    (h1 : d1 ≠ []) (h1d : d1.all Char.isDigit = true)
    (h2 : d2 ≠ []) (h2d : d2.all Char.isDigit = true)
    (hv : digitsToNat d1 = digitsToNat d2)
    (hs : ∀ x t, s = x :: t → x.isDigit = false) :
    endpoint ('#' :: (d1 ++ s)) = endpoint ('#' :: (d2 ++ s)) := by
  have hf1 : fixed ('#' :: (d1 ++ s)) = .error := fixed_cons_error (by decide)
  have hf2 : fixed ('#' :: (d2 ++ s)) = .error := fixed_cons_error (by decide)
  have hsr1 : search ('#' :: (d1 ++ s)) = .error := search_cons_error (by decide)
  have hsr2 : search ('#' :: (d2 ++ s)) = .error := search_cons_error (by decide)
  have hc1 : charP '#' ('#' :: (d1 ++ s)) = .ok (d1 ++ s) '#' := by
    simp [charP]
  have hc2 : charP '#' ('#' :: (d2 ++ s)) = .ok (d2 ++ s) '#' := by
    simp [charP]
  have hm : moment ('#' :: (d1 ++ s)) = moment ('#' :: (d2 ++ s)) := by
    unfold moment
    rw [hc1, hc2]
    simp only [PResult.bind]
    cases s with
    | nil =>
      have hdi1 : digit d1 = .incomplete := by
        have := digit_append h1 h1d hs
        simpa using this
      have hdi2 : digit d2 = .incomplete := by
        have := digit_append h2 h2d hs
        simpa using this
      simp [hdi1, hdi2]
    | cons x t =>
      have hd1 : digit (d1 ++ x :: t) = .ok (x :: t) d1 := by
        rw [digit_append h1 h1d hs]
        rfl
      have hd2 : digit (d2 ++ x :: t) = .ok (x :: t) d2 := by
        rw [digit_append h2 h2d hs]
        rfl
      have hfs1 := fromStrUsize_digits h1 h1d
      have hfs2 := fromStrUsize_digits h2 h2d
      rw [hv] at hfs1
      rw [hd1, hd2]
      simp only [PResult.bind]
      rw [hfs1, hfs2]
  unfold endpoint
  rw [hf1, hf2, hm, hsr1, hsr2]

/-- A successful `fixed` endpoint carries the numeric value of its consumed
digit span, not its text. -/
theorem fixed_carries_value {i rest : List Char} {e : Endpoint}
    (h : fixed i = .ok rest e) :
    ∃ ds, i = ds ++ rest ∧ ds ≠ [] ∧ ds.all Char.isDigit = true ∧
      e = .Fixed (digitsToNat ds) := by
  obtain ⟨v, hn, he⟩ := fixed_ok h
  obtain ⟨ds, hd, hf⟩ := number_ok hn
  obtain ⟨hi, hne, hall, -⟩ := digit_ok hd
  rw [fromStrUsize_digits hne hall] at hf
  by_cases hfit : digitsToNat ds ≤ USIZE_MAX
  · rw [if_pos hfit] at hf
    cases hf
    exact ⟨ds, hi, hne, hall, he⟩
  · rw [if_neg hfit] at hf
    cases hf

/-- A successful `moment` endpoint carries the numeric value of its consumed
digit span, not its text. -/
theorem moment_carries_value {i rest : List Char} {e : Endpoint}
    (h : moment i = .ok rest e) :
    ∃ ds, i = '#' :: (ds ++ rest) ∧ ds ≠ [] ∧ ds.all Char.isDigit = true ∧
      e = .Moment (digitsToNat ds) := by
  obtain ⟨t, ds, v, hi, hd, hf, he⟩ := moment_ok h
  obtain ⟨ht, hne, hall, -⟩ := digit_ok hd
  rw [fromStrUsize_digits hne hall] at hf
  by_cases hfit : digitsToNat ds ≤ USIZE_MAX
  · rw [if_pos hfit] at hf
    cases hf
    exact ⟨ds, by rw [hi, ht], hne, hall, he⟩
  · rw [if_neg hfit] at hf
    cases hf

/-- Substituting the remainder after a first endpoint and comma by one with
an identical `endpoint` result leaves the parsed range field unchanged. -/
theorem second_span_map_range {i1 i2 t1 t2 : List Char} {v : Endpoint}
    (h1 : endpoint i1 = .ok (',' :: t1) v)
    (h2 : endpoint i2 = .ok (',' :: t2) v)
    (ht : endpoint t1 = endpoint t2) :
    Option.map Command.range (parse_cmd i1) =
      Option.map Command.range (parse_cmd i2) := by
  have hcp1 : charP ',' (',' :: t1) = .ok t1 ',' := by simp [charP]
  have hcp2 : charP ',' (',' :: t2) = .ok t2 ',' := by simp [charP]
  have hde : double_ended i1 = double_ended i2 := by
    unfold double_ended
    rw [h1, h2]
    simp only [PResult.bind]
    rw [hcp1, hcp2]
    simp only [PResult.bind]
    rw [ht]
  have hp1 : past_to_present i1 = .ok t1 (.PastToPresent v) := by
    unfold past_to_present
    rw [h1]
    simp only [PResult.bind]
    rw [hcp1]
  have hp2 : past_to_present i2 = .ok t2 (.PastToPresent v) := by
    unfold past_to_present
    rw [h2]
    simp only [PResult.bind]
    rw [hcp2]
  cases hd2 : double_ended i2 with
  | ok rest w =>
    have hd1 : double_ended i1 = .ok rest w := hde.trans hd2
    have hr1 : range i1 = .ok rest w := by simp [range, hd1]
    have hr2 : range i2 = .ok rest w := by simp [range, hd2]
    simp [parse_cmd, command, hr1, hr2, rest_s, PResult.bind]
  | error =>
    have hd1 : double_ended i1 = .error := hde.trans hd2
    have hr1 : range i1 = .ok t1 (.PastToPresent v) := by
      simp [range, hd1, hp1]
    have hr2 : range i2 = .ok t2 (.PastToPresent v) := by
      simp [range, hd2, hp2]
    simp [parse_cmd, command, hr1, hr2, rest_s, PResult.bind]
  | incomplete =>
    have hd1 : double_ended i1 = .incomplete := hde.trans hd2
    have hr1 : range i1 = .incomplete := by simp [range, hd1]
    have hr2 : range i2 = .incomplete := by simp [range, hd2]
    simp [parse_cmd, command, hr1, hr2]

/-- C10: digit spans are numerically normalized.  A `Fixed` or `Moment`
endpoint carries the integer value of its consumed digit span, not its text;
consequently, replacing an endpoint digit span by one denoting the same
number — whether the span is a leading `Fixed` span, a `Moment` span after
the leading `'#'`, or sits in the second endpoint after the comma — yields a
structurally identical parsed range (e.g. `"007,d"` and `"7,d"`). -/
theorem C10_digit_spans_normalized :
    (∀ i rest e, fixed i = .ok rest e →
      ∃ ds, i = ds ++ rest ∧ ds ≠ [] ∧ ds.all Char.isDigit = true ∧
        e = .Fixed (digitsToNat ds)) ∧
    (∀ i rest e, moment i = .ok rest e →
      ∃ ds, i = '#' :: (ds ++ rest) ∧ ds ≠ [] ∧ ds.all Char.isDigit = true ∧
        e = .Moment (digitsToNat ds)) ∧
    (∀ d1 d2 s, d1 ≠ [] → d1.all Char.isDigit = true → d2 ≠ [] →
      d2.all Char.isDigit = true → digitsToNat d1 = digitsToNat d2 →
      (∀ x t, s = x :: t → x.isDigit = false) →
      Option.map Command.range (parse_cmd (d1 ++ s)) =
        Option.map Command.range (parse_cmd (d2 ++ s)) ∧
      Option.map Command.range (parse_cmd ('#' :: (d1 ++ s))) =
        Option.map Command.range (parse_cmd ('#' :: (d2 ++ s)))) ∧
    (∀ i1 i2 t1 t2 v, endpoint i1 = .ok (',' :: t1) v →
      endpoint i2 = .ok (',' :: t2) v → endpoint t1 = endpoint t2 →
      Option.map Command.range (parse_cmd i1) =
        Option.map Command.range (parse_cmd i2)) := by
  refine ⟨?_, ?_, ?_, ?_⟩
  · intro i rest e h
    exact fixed_carries_value h
  · intro i rest e h
    exact moment_carries_value h
  · intro d1 d2 s h1 h1d h2 h2d hv hs
    exact ⟨map_range_congr (range_congr_endpoint
        (endpoint_digit_span_congr h1 h1d h2 h2d hv hs)),
      map_range_congr (range_congr_endpoint
        (endpoint_moment_span_congr h1 h1d h2 h2d hv hs))⟩
  · intro i1 i2 t1 t2 v h1 h2 ht
    exact second_span_map_range h1 h2 ht

theorem C10_witness :
    (∃ ds, "007,d".toList = ds ++ ",d".toList ∧ ds ≠ [] ∧
      ds.all Char.isDigit = true ∧ Endpoint.Fixed 7 = .Fixed (digitsToNat ds)) ∧
    (∃ ds, "#007,d".toList = '#' :: (ds ++ ",d".toList) ∧ ds ≠ [] ∧
      ds.all Char.isDigit = true ∧
      Endpoint.Moment 7 = .Moment (digitsToNat ds)) ∧
    (Option.map Command.range (parse_cmd ("007".toList ++ ",d".toList)) =
        Option.map Command.range (parse_cmd ("7".toList ++ ",d".toList)) ∧
      Option.map Command.range
          (parse_cmd ('#' :: ("007".toList ++ ",d".toList))) =
        Option.map Command.range
          (parse_cmd ('#' :: ("7".toList ++ ",d".toList)))) ∧
    Option.map Command.range (parse_cmd ("1,007d".toList)) =
      Option.map Command.range (parse_cmd ("1,7d".toList)) :=
  ⟨C10_digit_spans_normalized.1 ("007,d".toList) (",d".toList)
      (.Fixed 7) (by decide),
    C10_digit_spans_normalized.2.1 ("#007,d".toList) (",d".toList)
      (.Moment 7) (by decide),
    C10_digit_spans_normalized.2.2.1 ("007".toList) ("7".toList)
      (",d".toList) (by decide) (by decide) (by decide) (by decide)
      (by decide)
      (by
        intro x t hxt
        cases hxt
        decide),
    C10_digit_spans_normalized.2.2.2 ("1,007d".toList) ("1,7d".toList)
      ("007d".toList) ("7d".toList) (.Fixed 1)
      (by decide) (by decide) (by decide)⟩

end Ded
